import Mathlib

/-!
Shallow embedding of the picoscope acquisition core
(`ps4824a_wrapper_blockmode_utils.py` and `ps4824a_wrapper.py`).

Numbers that Python handles as `int`/`float` are modelled as `ℤ`/`ℚ`
(the inputs exercised here are exactly representable, so rational
arithmetic agrees with the Python float computation). Python dicts are
modelled as association lists with insert-or-replace update, which
preserves Python's key-uniqueness and insertion order. Driver calls are
external collaborators: their status codes enter the model as explicit
parameters, and `assert_pico_ok` (raise unless status == PICO_OK = 0)
is modelled by the control flow of the embedded functions.
-/

namespace PS4824a

/-- Python's `round` (banker's rounding, round half to even) on an exact
rational, as applied by the SDK conversion helpers. -/
def pyRound (q : ℚ) : ℤ :=
  if q - ⌊q⌋ < 1/2 then ⌊q⌋
  else if 1/2 < q - ⌊q⌋ then ⌊q⌋ + 1
  else if 2 ∣ ⌊q⌋ then ⌊q⌋ else ⌊q⌋ + 1

/-- Modelled from the spec: the vendor SDK's table of channel input
ranges in mV, indexed by the range index the wrapper passes to
`mV2adc`/`adc2mV` ("the full-scale voltage window (in millivolts) a
channel is configured to digitize"). Its first twelve entries coincide
with the wrapper's own `allowed_ranges` table. -/
def channelInputRanges : List ℕ :=
  [10, 20, 50, 100, 200, 500, 1000, 2000, 5000, 10000, 20000, 50000, 100000, 200000]

/-- Modelled from the spec: the vendor SDK helper converting a trigger
threshold in mV to ADC counts ("linear scaling: adcCounts =
thresholdMv / rangeMv * maxAdcCount, rounded"), where the second
argument is a range index into `channelInputRanges`. -/
def mV2adc (millivolts : ℚ) (rangeIndex : ℕ) (maxADC : ℤ) : ℤ :=
  pyRound (millivolts * maxADC / (channelInputRanges.getD rangeIndex 0 : ℚ))

/-- Modelled from the spec: the vendor SDK helper converting a buffer of
raw ADC counts to mV ("millivolts = rawAdcCount × channelRangeMv /
maxAdcCount"), where the second argument is a range index into
`channelInputRanges`. -/
def adc2mV (bufferADC : List ℚ) (rangeIndex : ℕ) (maxADC : ℤ) : List ℚ :=
  bufferADC.map (fun x => x * (channelInputRanges.getD rangeIndex 0 : ℚ) / (maxADC : ℚ))

/-- Python dict read `d[k]`, `none` modelling a `KeyError`. -/
def dictGet {α : Type} : List (Char × α) → Char → Option α
  | [], _ => none
  | (k', v') :: rest, k => if k' = k then some v' else dictGet rest k

/-- Python dict write `d[k] = v`: replace in place if the key exists
(keeping its position), else append. -/
def dictSet {α : Type} : List (Char × α) → Char → α → List (Char × α)
  | [], k, v => [(k, v)]
  | (k', v') :: rest, k, v =>
      if k' = k then (k, v) :: rest else (k', v') :: dictSet rest k v

/-- Keys of an association list. -/
def dictKeys {α : Type} (d : List (Char × α)) : List Char := d.map Prod.fst

end PS4824a

namespace BlockMode

open PS4824a

/-- State of the block-mode `Picoscope` class
(`ps4824a_wrapper_blockmode_utils.py`): the instance fields mutated by
the configuration and acquisition methods. `max_ADC` is queried from
the device at session open; `timebase`, `block_size`,
`pre_trigger_samples` and `post_trigger_samples` are absent until
`setup_block` runs and are given neutral initial values here. -/
structure Picoscope where
  max_ADC : ℤ
  active_channels : List Char
  channel_ranges : List (Char × ℕ)
  buffers : List (Char × List ℚ)
  timebase : ℤ
  block_size : ℕ
  pre_trigger_samples : ℤ
  post_trigger_samples : ℤ
deriving Repr, DecidableEq

/-- The state right after `__init__` (empty dicts and channel list). -/
def init_scope (maxADC : ℤ) : Picoscope :=
  { max_ADC := maxADC
    active_channels := []
    channel_ranges := []
    buffers := []
    timebase := 0
    block_size := 0
    pre_trigger_samples := 0
    post_trigger_samples := 0 }

/-- `self.allowed_ranges`: "lookup list to convert range index to mV.
Max of 50000 mV comes from datasheet." (a constant of the class). -/
def allowed_ranges : List ℕ :=
  [10, 20, 50, 100, 200, 500, 1000, 2000, 5000, 10000, 20000, 50000]

/-- `next(x for x in xs if x >= r)`: first element of `xs` that is
`≥ r`, `none` modelling the `StopIteration`. -/
def next_ge (r : ℚ) : List ℕ → Option ℕ
  | [] => none
  | x :: xs => if r ≤ (x : ℚ) then some x else next_ge r xs

/-- `coerce_channel_range` (inner function of `setup_channel`): find the
first allowed range `≥ abs(channel_range_mv)`; on `StopIteration` fall
back to the last allowed range, then return the index of the chosen
value in `allowed_ranges`. -/
def coerce_channel_range (channel_range_mv : ℚ) : ℕ :=
  match next_ge |channel_range_mv| allowed_ranges with
  | some coerced_range => allowed_ranges.indexOf coerced_range
  | none => allowed_ranges.indexOf (allowed_ranges.getLastD 0)

/-- `setup_channel`: coerce the requested range, issue the driver
`SetChannel` call (external), append the name to `active_channels` and
record the resolved range index in the `channel_ranges` dict. -/
def setup_channel (s : Picoscope) (channel_name : Char) (channel_range_mv : ℚ) :
    Picoscope :=
  let channel_range := coerce_channel_range channel_range_mv
  { s with
    active_channels := s.active_channels ++ [channel_name]
    channel_ranges := dictSet s.channel_ranges channel_name channel_range }

/-- Observable outcome of `setup_trigger`: either the process is
terminated by `sys.exit()` before any trigger driver call, or
`ps4000aSetSimpleTrigger` is issued with the converted threshold. The
spec's recoverable configuration-error return (`configError`) is
included so that the code's behaviour can be compared against it; the
embedded code never produces it. -/
inductive TriggerOutcome where
  | programExit
  | configError
  | armed (thresholdAdc : ℤ)
deriving Repr, DecidableEq

/-- `setup_trigger` together with its inner `convert_trigger_units`:
look up the source channel's range index (a missing key prints a
configuration error and calls `sys.exit()`); if the channel's range in
mV is `≤` the requested threshold, print a configuration error and call
`sys.exit()`; otherwise convert the threshold with `mV2adc` and arm the
hardware trigger with it. -/
def setup_trigger (s : Picoscope) (source_channel_name : Char)
    (trigger_threshold_mv : ℚ) : TriggerOutcome :=
  match dictGet s.channel_ranges source_channel_name with
  | none => .programExit
  | some source_channel_range =>
      if (allowed_ranges.getD source_channel_range 0 : ℚ) ≤ trigger_threshold_mv then
        .programExit
      else
        .armed (mV2adc trigger_threshold_mv source_channel_range s.max_ADC)

/-- `convert_timebase` (inner function of `setup_block`):
`sampling_rate = (block_size-1)/block_duration`,
`timebase = floor(400e6/sampling_rate) - 1`, kept if
`0 <= timebase <= 2e32 - 1` and otherwise replaced by the fallback code
3999 (100 kS/s). The Python literal is `2e32` (i.e. 2·10³²), and
`2e32 - 1` evaluates to the same float as `2e32`; the comparison is
exact at every integer magnitude reachable here. -/
def convert_timebase (block_size : ℕ) (block_duration : ℚ) : ℤ :=
  let sampling_rate : ℚ := ((block_size : ℚ) - 1) / block_duration
  let timebase : ℤ := ⌊(400000000 : ℚ) / sampling_rate⌋ - 1
  if 0 ≤ timebase ∧ timebase ≤ 2 * 10 ^ 32 - 1 then timebase else 3999

/-- `setup_block`: store the converted timebase and block size, split
the block into `pre_trigger_samples = floor(block_size *
pre_trigger_percent)` and `post_trigger_samples = block_size -
pre_trigger_samples` (the trailing `GetTimebase2` driver call is
external). -/
def setup_block (s : Picoscope) (block_size : ℕ) (block_duration : ℚ)
    (pre_trigger_percent : ℚ) : Picoscope :=
  let pre : ℤ := ⌊(block_size : ℚ) * pre_trigger_percent⌋
  { s with
    timebase := convert_timebase block_size block_duration
    block_size := block_size
    pre_trigger_samples := pre
    post_trigger_samples := (block_size : ℤ) - pre }

/-- Outcome of `run_block`: `abort status` models `assert_pico_ok`
raising on a checked non-success status; `started` carries the state
after the buffer-registration loop and the list of channels for which a
`SetDataBuffers` driver call was issued. -/
inductive RunBlockResult where
  | abort (status : ℕ)
  | started (s : Picoscope) (setDataBuffersCalls : List Char)
deriving Repr, DecidableEq

/-- `run_block`: for every entry of `active_channels` in order, allocate
a fresh zeroed buffer of `block_size` samples and issue a
`SetDataBuffers` driver call; the Python `assert_pico_ok(status)` sits
after the `for` loop, so only the status written by the loop's last
iteration is checked. Then `RunBlock` is issued and its status checked.
`setDataBuffersStatus` and `runBlockStatus` are the statuses the driver
returns for those calls. -/
def run_block (s : Picoscope) (setDataBuffersStatus : Char → ℕ)
    (runBlockStatus : ℕ) : RunBlockResult :=
  let s' := s.active_channels.foldl
    (fun acc channel =>
      { acc with buffers := dictSet acc.buffers channel (List.replicate acc.block_size (0 : ℚ)) }) s
  let lastStatus := s.active_channels.foldl
    (fun _ channel => setDataBuffersStatus channel) 0
  if lastStatus ≠ 0 then .abort lastStatus
  else if runBlockStatus ≠ 0 then .abort runBlockStatus
  else .started s' s.active_channels

/-- `convert_ADC_units` (inner function of `get_block_traces`): rebind
`self.buffers` to the dict mapping each channel to `adc2mV(buffer,
channel_ranges[chl], max_ADC)` of its current buffer. -/
def convert_ADC_units (s : Picoscope) : Picoscope :=
  let converted := s.buffers.map
    (fun p => (p.1, adc2mV p.2 ((dictGet s.channel_ranges p.1).getD 0) s.max_ADC))
  { s with buffers := converted }

/-- The state transformation `get_block_traces` applies to the
Python-visible session state: after the readiness poll and the
`GetValues` transfer (both external driver interactions), it runs
`convert_ADC_units` and returns `self.buffers`. Nothing resets
`self.buffers` between calls, so calling it again without an
intervening `run_block` applies the same conversion to the
already-converted data. -/
def get_block_traces (s : Picoscope) : Picoscope :=
  convert_ADC_units s

end BlockMode

namespace PS4824a

/-- One observable action of a blocking collection loop: a readiness
poll / latest-values request (`gotData` records whether it reported new
data or readiness), or a `time.sleep` back-off. -/
inductive PollAction where
  | poll (gotData : Bool)
  | sleep
deriving Repr, DecidableEq

/-- The property the spec asks of a polling loop: every poll that
reported no data is immediately followed by a sleep (unless the loop
exits right after it). -/
def sleepsAfterFailedPoll (tr : List PollAction) : Prop :=
  List.Chain' (fun a b => a = .poll false → b = .sleep) tr

instance (tr : List PollAction) : Decidable (sleepsAfterFailedPoll tr) :=
  inferInstanceAs (Decidable (List.Chain'
    (fun a b => a = PollAction.poll false → b = PollAction.sleep) tr))

end PS4824a

namespace BlockMode

open PS4824a

/-- The readiness-wait loop of `get_block_traces`:
`while ready.value == check.value: ps4000aIsReady(...)`. Each `Bool` of
`readyResults` is the ready flag the driver writes on one `IsReady`
call (the call's status `status_temp` is never consulted); the result
is the trace of observable actions until the loop exits or the supplied
driver behaviour is exhausted. The loop body contains no sleep. -/
def block_ready_loop : List Bool → List PollAction
  | [] => []
  | r :: rs => .poll r :: (if r then [] else block_ready_loop rs)

end BlockMode

namespace StreamMode

open PS4824a

/-- State of the streaming `Picoscope` class (`ps4824a_wrapper.py`):
rotating per-channel intermediate buffers of `buffer_len` samples
beneath per-channel destination buffers of `total_buffer_len =
buffer_len * num_buffers` samples, plus the per-run cursor and flags of
`stream_traces`. -/
structure Picoscope where
  buffer_len : ℕ
  num_buffers : ℕ
  total_buffer_len : ℕ
  intermediate_buffers : List (Char × List ℤ)
  channel_ranges : List (Char × ℕ)
  complete_buffers : List (Char × List ℤ)
  nextSample : ℕ
  autoStopOuter : Bool
  wasCalledBack : Bool
deriving Repr, DecidableEq

/-- numpy slice assignment `dest[start : start + len(src)] = src`
(meaningful when `start + src.length ≤ dest.length`, which the driver
contract guarantees for in-bounds segments). -/
def writeSlice (dest : List ℤ) (start : ℕ) (src : List ℤ) : List ℤ :=
  dest.take start ++ src ++ dest.drop (start + src.length)

/-- `streaming_callback` (inner function of `stream_traces`), invoked by
the driver with a segment of `noOfSamples` new samples starting at
`startIndex` of each rotating intermediate buffer: set `_wasCalledBack`,
copy `intermediate_buffers[chl][startIndex:sourceEnd]` to
`complete_buffers[chl][_nextSample:destEnd]` for every channel, advance
`_nextSample` by `noOfSamples`, and record `autoStop`. -/
def streaming_callback (s : Picoscope) (noOfSamples startIndex : ℕ)
    (autoStop : Bool) : Picoscope :=
  let copied := s.complete_buffers.map
    (fun p => (p.1, writeSlice p.2 s.nextSample
      ((((dictGet s.intermediate_buffers p.1).getD []).drop startIndex).take noOfSamples)))
  { s with
    wasCalledBack := true
    complete_buffers := copied
    nextSample := s.nextSample + noOfSamples
    autoStopOuter := if autoStop then true else s.autoStopOuter }

/-- One delivery the driver makes on a `GetStreamingLatestValues` call:
either a segment `(noOfSamples, startIndex, autoStop)` passed to the
callback, or no callback at all. -/
def Delivery : Type := Option (ℕ × ℕ × Bool)

/-- The collection loop of `stream_traces`:
`while self._nextSample < self.total_buffer_len and not self._autoStopOuter`,
each iteration clears `_wasCalledBack`, calls
`GetStreamingLatestValues` (which runs `streaming_callback` when the
driver has a segment), and sleeps for 0.01 s when it was not called
back. `deliveries` is the driver's behaviour, one entry per call;
the result is the trace of observable actions paired with the final
state. -/
def stream_traces_loop (s : Picoscope) :
    List Delivery → List PollAction × Picoscope
  | [] => ([], s)
  | d :: ds =>
    if s.nextSample < s.total_buffer_len ∧ s.autoStopOuter = false then
      match d with
      | some (noOfSamples, startIndex, autoStop) =>
          let s' := streaming_callback { s with wasCalledBack := false }
            noOfSamples startIndex autoStop
          let rest := stream_traces_loop s' ds
          (.poll true :: rest.1, rest.2)
      | none =>
          let rest := stream_traces_loop { s with wasCalledBack := false } ds
          (.poll false :: .sleep :: rest.1, rest.2)
    else ([], s)

end StreamMode

/-! ## Helper lemmas -/

namespace BlockMode

open PS4824a

theorem next_ge_eq_none {r : ℚ} {l : List ℕ} (h : next_ge r l = none) :
    ∀ x ∈ l, (x : ℚ) < r := by
  induction l with
  | nil => simp
  | cons y ys ih =>
    by_cases hy : r ≤ (y : ℚ)
    · simp [next_ge, hy] at h
    · simp only [next_ge, hy, if_false] at h
      intro x hx
      rcases List.mem_cons.mp hx with rfl | hx
      · exact lt_of_not_le hy
      · exact ih h x hx

theorem next_ge_eq_some {r : ℚ} {l : List ℕ} {v : ℕ} (h : next_ge r l = some v) :
    v ∈ l ∧ r ≤ (v : ℚ) := by
  induction l with
  | nil => simp [next_ge] at h
  | cons y ys ih =>
    by_cases hy : r ≤ (y : ℚ)
    · simp only [next_ge, hy, if_true, Option.some.injEq] at h
      exact ⟨by simp [h.symm], h ▸ hy⟩
    · simp only [next_ge, hy, if_false] at h
      exact ⟨List.mem_cons_of_mem _ (ih h).1, (ih h).2⟩

theorem next_ge_min {r : ℚ} {l : List ℕ} {v : ℕ}
    (hs : l.Pairwise (· ≤ ·)) (h : next_ge r l = some v) :
    ∀ x ∈ l, r ≤ (x : ℚ) → v ≤ x := by
  induction l with
  | nil => simp [next_ge] at h
  | cons y ys ih =>
    by_cases hy : r ≤ (y : ℚ)
    · simp only [next_ge, hy, if_true, Option.some.injEq] at h
      subst h
      intro x hx _
      rcases List.mem_cons.mp hx with rfl | hx
      · exact le_refl x
      · exact (List.pairwise_cons.mp hs).1 x hx
    · simp only [next_ge, hy, if_false] at h
      intro x hx hrx
      rcases List.mem_cons.mp hx with rfl | hx
      · exact absurd hrx hy
      · exact ih (List.pairwise_cons.mp hs).2 h x hx hrx

theorem allowed_ranges_sorted : allowed_ranges.Pairwise (· ≤ ·) := by decide

theorem allowed_ranges_getD_indexOf :
    ∀ v ∈ allowed_ranges,
      allowed_ranges.getD (allowed_ranges.indexOf v) 0 = v
      ∧ allowed_ranges.indexOf v < allowed_ranges.length := by decide

theorem allowed_ranges_le_max : ∀ x ∈ allowed_ranges, x ≤ 50000 := by decide

theorem allowed_ranges_getD_pos :
    ∀ i < allowed_ranges.length, 0 < allowed_ranges.getD i 0 := by decide

theorem channelInputRanges_getD_eq_allowed :
    ∀ i < allowed_ranges.length,
      channelInputRanges.getD i 0 = allowed_ranges.getD i 0 := by decide

end BlockMode

namespace PS4824a

theorem dictGet_map_value {α β : Type} (f : Char → α → β) :
    ∀ (l : List (Char × α)) (c : Char),
      dictGet (l.map (fun p => (p.1, f p.1 p.2))) c = (dictGet l c).map (f c) := by
  intro l c
  induction l with
  | nil => rfl
  | cons p rest ih =>
    by_cases h : p.1 = c
    · simp [dictGet, h]
    · simp [dictGet, h, ih]

theorem dictKeys_dictSet {α : Type} :
    ∀ (d : List (Char × α)) (k : Char) (v : α),
      dictKeys (dictSet d k v)
        = if k ∈ dictKeys d then dictKeys d else dictKeys d ++ [k] := by
  intro d k v
  induction d with
  | nil => simp [dictKeys, dictSet]
  | cons p rest ih =>
    by_cases h : p.1 = k
    · subst h
      simp [dictKeys, dictSet]
    · have hne : ¬ k = p.1 := fun e => h e.symm
      simp only [dictSet, if_neg h, dictKeys, List.map_cons, List.mem_cons, hne,
        false_or] at ih ⊢
      rw [ih]
      by_cases hm : k ∈ rest.map Prod.fst
      · simp [dictKeys, hm]
      · simp [dictKeys, hm]

theorem nodup_dictKeys_dictSet {α : Type} (d : List (Char × α)) (k : Char) (v : α)
    (h : (dictKeys d).Nodup) : (dictKeys (dictSet d k v)).Nodup := by
  rw [dictKeys_dictSet]
  by_cases hm : k ∈ dictKeys d
  · rw [if_pos hm]
    exact h
  · rw [if_neg hm]
    simp [List.nodup_append, h, List.disjoint_singleton, hm]

end PS4824a

namespace BlockMode

open PS4824a

theorem count_active_channels_foldl (cfgs : List (Char × ℚ)) :
    ∀ (s : Picoscope) (name : Char),
      ((cfgs.foldl (fun t p => setup_channel t p.1 p.2) s).active_channels).count name
        = s.active_channels.count name + (cfgs.map Prod.fst).count name := by
  induction cfgs with
  | nil => intro s name; simp
  | cons p rest ih =>
    intro s name
    rw [List.foldl_cons, ih]
    simp [setup_channel, List.count_append, List.count_cons]
    omega

theorem nodup_ranges_foldl (cfgs : List (Char × ℚ)) :
    ∀ (s : Picoscope),
      (dictKeys s.channel_ranges).Nodup →
      (dictKeys ((cfgs.foldl (fun t p => setup_channel t p.1 p.2) s)).channel_ranges).Nodup := by
  induction cfgs with
  | nil => intro s h; exact h
  | cons p rest ih =>
    intro s h
    rw [List.foldl_cons]
    exact ih _ (nodup_dictKeys_dictSet _ _ _ h)

theorem run_block_started_calls (s : Picoscope) (f : Char → ℕ) (rs : ℕ)
    (s2 : Picoscope) (calls : List Char)
    (h : run_block s f rs = .started s2 calls) : calls = s.active_channels := by
  simp only [run_block] at h
  split_ifs at h
  all_goals
    first
      | exact RunBlockResult.noConfusion h
      | (injection h with _ e; exact e.symm)

end BlockMode

namespace PS4824a

theorem pyRound_nonneg {q : ℚ} (h : 0 ≤ q) : 0 ≤ pyRound q := by
  have hf : (0 : ℤ) ≤ ⌊q⌋ := Int.floor_nonneg.mpr h
  unfold pyRound
  split_ifs <;> omega

theorem pyRound_le_int {q : ℚ} {n : ℤ} (h : q ≤ (n : ℚ)) : pyRound q ≤ n := by
  have hf : ⌊q⌋ ≤ n := by
    have := Int.floor_le_floor h
    simpa using this
  have hfq : (⌊q⌋ : ℚ) ≤ q := Int.floor_le q
  unfold pyRound
  split_ifs with h1 h2 h3
  · exact hf
  · have hhalf : (⌊q⌋ : ℚ) + 1/2 ≤ q := by linarith
    have : (⌊q⌋ : ℚ) < (n : ℚ) := by linarith
    have : ⌊q⌋ < n := by exact_mod_cast this
    omega
  · exact hf
  · have hhalf : (⌊q⌋ : ℚ) + 1/2 ≤ q := by linarith [le_of_not_lt h1]
    have : (⌊q⌋ : ℚ) < (n : ℚ) := by linarith
    have : ⌊q⌋ < n := by exact_mod_cast this
    omega

end PS4824a

namespace StreamMode

open PS4824a

theorem stream_traces_loop_cons_none (s : Picoscope) (ds : List Delivery) :
    stream_traces_loop s ((none : Delivery) :: ds)
      = if s.nextSample < s.total_buffer_len ∧ s.autoStopOuter = false then
          (.poll false :: .sleep :: (stream_traces_loop { s with wasCalledBack := false } ds).1,
           (stream_traces_loop { s with wasCalledBack := false } ds).2)
        else ([], s) := rfl

theorem stream_traces_loop_cons_some (s : Picoscope) (n st : ℕ) (stop : Bool)
    (ds : List Delivery) :
    stream_traces_loop s ((some (n, st, stop) : Delivery) :: ds)
      = if s.nextSample < s.total_buffer_len ∧ s.autoStopOuter = false then
          (.poll true :: (stream_traces_loop
              (streaming_callback { s with wasCalledBack := false } n st stop) ds).1,
           (stream_traces_loop
              (streaming_callback { s with wasCalledBack := false } n st stop) ds).2)
        else ([], s) := rfl

end StreamMode

/-! ## Claim theorems -/

namespace Claims

open PS4824a BlockMode StreamMode

/-- C1: for every requested channel range `r` (mV, possibly negative),
`setup_channel`'s range coercion resolves to the smallest supported
range of the ascending table `allowed_ranges` that is `≥ |r|`; if `|r|`
exceeds every supported value it resolves to the maximum supported
range (50000 mV); and the returned range index always maps to a real
entry of the table. -/
theorem c1_range_coercion (r : ℚ) :
    coerce_channel_range r < allowed_ranges.length
    ∧ (|r| ≤ 50000 →
        |r| ≤ (allowed_ranges.getD (coerce_channel_range r) 0 : ℚ)
        ∧ ∀ x ∈ allowed_ranges, |r| ≤ (x : ℚ) →
            allowed_ranges.getD (coerce_channel_range r) 0 ≤ x)
    ∧ (50000 < |r| → allowed_ranges.getD (coerce_channel_range r) 0 = 50000) := by
  cases h : next_ge |r| allowed_ranges with
  | none =>
    have hall := next_ge_eq_none h
    have h50 : (50000 : ℚ) < |r| := by
      have := hall 50000 (by decide)
      simpa using this
    have hc : coerce_channel_range r = 11 := by
      simp only [coerce_channel_range, h]
      decide
    refine ⟨by simp [hc, allowed_ranges], ?_, ?_⟩
    · intro hle
      exact absurd hle (not_le.mpr h50)
    · intro _
      simp [hc, allowed_ranges]
  | some v =>
    obtain ⟨hmem, hge⟩ := next_ge_eq_some h
    obtain ⟨hgetD, hlt⟩ := allowed_ranges_getD_indexOf v hmem
    have hc : coerce_channel_range r = allowed_ranges.indexOf v := by
      simp [coerce_channel_range, h]
    have hv50 : (v : ℚ) ≤ 50000 := by
      exact_mod_cast Nat.cast_le.mpr (allowed_ranges_le_max v hmem)
    refine ⟨by rw [hc]; exact hlt, ?_, ?_⟩
    · intro _
      constructor
      · rw [hc, hgetD]; exact hge
      · intro x hx hrx
        rw [hc, hgetD]
        exact next_ge_min allowed_ranges_sorted h x hx hrx
    · intro h50
      exact absurd (le_trans hge hv50) (not_le.mpr h50)

/-- Witness for C1 at the spec's scenario A: requested range 1500 mV
resolves to an in-table index whose entry is the smallest supported
range `≥ 1500` (namely 2000 mV). -/
theorem c1_range_coercion_witness :
    |(1500 : ℚ)| ≤ 50000
    ∧ coerce_channel_range 1500 < allowed_ranges.length
    ∧ |(1500 : ℚ)| ≤ (allowed_ranges.getD (coerce_channel_range 1500) 0 : ℚ)
    ∧ ∀ x ∈ allowed_ranges, |(1500 : ℚ)| ≤ (x : ℚ) →
        allowed_ranges.getD (coerce_channel_range 1500) 0 ≤ x :=
  ⟨by norm_num, (c1_range_coercion 1500).1,
   ((c1_range_coercion 1500).2.1 (by norm_num)).1,
   ((c1_range_coercion 1500).2.1 (by norm_num)).2⟩

/-- C2 counterexample: on a session with channel 'A' resolved to
2000 mV (range index 7) and maxAdc = 32767, the threshold −100 mV is
strictly less than the range, yet the converted count −1638 violates
`0 ≤ adcCounts`; and the threshold 1999.999 mV (also `< 2000`) converts
to 32767, violating `adcCounts < maxAdc`. -/
theorem c2_counterexample :
    ((-100 : ℚ) < 2000
      ∧ dictGet (setup_channel (init_scope 32767) 'A' 2000).channel_ranges 'A' = some 7
      ∧ allowed_ranges.getD 7 0 = 2000
      ∧ setup_trigger (setup_channel (init_scope 32767) 'A' 2000) 'A' (-100)
          = .armed (-1638)
      ∧ ¬ (0 ≤ (-1638 : ℤ)))
    ∧ ((1999999/1000 : ℚ) < 2000
      ∧ setup_trigger (setup_channel (init_scope 32767) 'A' 2000) 'A' (1999999/1000)
          = .armed 32767
      ∧ ¬ ((32767 : ℤ) < 32767)) := by
  refine ⟨⟨by norm_num, ?_, by decide, ?_, by decide⟩, by norm_num, ?_, by decide⟩ <;>
    norm_num [setup_trigger, setup_channel, init_scope, coerce_channel_range, next_ge,
      allowed_ranges, dictSet, dictGet, mV2adc, channelInputRanges, pyRound]

/-- C2 (amended): for every threshold `t` with `0 ≤ t` strictly less
than the source channel's resolved range `R`, `setup_trigger` converts
the threshold to `adcCounts = round(t * maxAdc / R)` (Python banker's
rounding) and arms the trigger with it, and the result satisfies
`0 ≤ adcCounts ≤ maxAdc` (the upper bound is attained by thresholds
within half an ADC step below `R`, and negative thresholds produce
negative counts, so the original `0 ≤ adcCounts < maxAdc` holds only in
this weakened form). -/
theorem c2_trigger_conversion (s : BlockMode.Picoscope) (name : Char) (idx : ℕ) (t : ℚ)
    (hidx : dictGet s.channel_ranges name = some idx)
    (hlen : idx < allowed_ranges.length)
    (hmax : 0 < s.max_ADC)
    (ht0 : 0 ≤ t)
    (htR : t < (allowed_ranges.getD idx 0 : ℚ)) :
    setup_trigger s name t
      = .armed (pyRound (t * s.max_ADC / (allowed_ranges.getD idx 0 : ℚ)))
    ∧ 0 ≤ pyRound (t * s.max_ADC / (allowed_ranges.getD idx 0 : ℚ))
    ∧ pyRound (t * s.max_ADC / (allowed_ranges.getD idx 0 : ℚ)) ≤ s.max_ADC := by
  have hRpos : (0 : ℚ) < (allowed_ranges.getD idx 0 : ℚ) := by
    exact_mod_cast allowed_ranges_getD_pos idx hlen
  have hMpos : (0 : ℚ) < (s.max_ADC : ℚ) := by exact_mod_cast hmax
  have harm : setup_trigger s name t
      = .armed (pyRound (t * s.max_ADC / (allowed_ranges.getD idx 0 : ℚ))) := by
    simp only [setup_trigger, hidx]
    rw [if_neg (not_le.mpr htR)]
    unfold mV2adc
    rw [channelInputRanges_getD_eq_allowed idx hlen]
  have hx0 : 0 ≤ t * s.max_ADC / (allowed_ranges.getD idx 0 : ℚ) :=
    div_nonneg (mul_nonneg ht0 hMpos.le) hRpos.le
  have hxM : t * s.max_ADC / (allowed_ranges.getD idx 0 : ℚ) ≤ (s.max_ADC : ℚ) := by
    rw [div_le_iff₀ hRpos]
    calc t * (s.max_ADC : ℚ) ≤ (allowed_ranges.getD idx 0 : ℚ) * s.max_ADC := by
          exact mul_le_mul_of_nonneg_right htR.le hMpos.le
      _ = (s.max_ADC : ℚ) * (allowed_ranges.getD idx 0 : ℚ) := by ring
  exact ⟨harm, pyRound_nonneg hx0, pyRound_le_int hxM⟩

/-- Witness for the amended C2 at the spec's scenario B: channel 'B'
with range 2000 mV, threshold 1500 mV, maxAdc = 32767; the conversion
yields `round(1500 · 32767 / 2000) = 24575` within `[0, 32767]`. -/
theorem c2_trigger_conversion_witness :
    dictGet (setup_channel (init_scope 32767) 'B' 2000).channel_ranges 'B' = some 7
    ∧ 7 < allowed_ranges.length
    ∧ 0 < (setup_channel (init_scope 32767) 'B' 2000).max_ADC
    ∧ (0 : ℚ) ≤ 1500
    ∧ (1500 : ℚ) < (allowed_ranges.getD 7 0 : ℚ)
    ∧ (setup_trigger (setup_channel (init_scope 32767) 'B' 2000) 'B' 1500
        = .armed (pyRound ((1500 : ℚ) * (setup_channel (init_scope 32767) 'B' 2000).max_ADC
            / (allowed_ranges.getD 7 0 : ℚ)))
      ∧ 0 ≤ pyRound ((1500 : ℚ) * (setup_channel (init_scope 32767) 'B' 2000).max_ADC
            / (allowed_ranges.getD 7 0 : ℚ))
      ∧ pyRound ((1500 : ℚ) * (setup_channel (init_scope 32767) 'B' 2000).max_ADC
            / (allowed_ranges.getD 7 0 : ℚ))
          ≤ (setup_channel (init_scope 32767) 'B' 2000).max_ADC) := by
  have hget : dictGet (setup_channel (init_scope 32767) 'B' 2000).channel_ranges 'B'
      = some 7 := by
    norm_num [setup_channel, init_scope, coerce_channel_range, next_ge,
      allowed_ranges, dictSet, dictGet]
  have hmax : (setup_channel (init_scope 32767) 'B' 2000).max_ADC = 32767 := by
    norm_num [setup_channel, init_scope]
  refine ⟨hget, by decide, by rw [hmax]; norm_num, by norm_num,
    by norm_num [allowed_ranges], ?_⟩
  exact c2_trigger_conversion (setup_channel (init_scope 32767) 'B' 2000) 'B' 7 1500
    hget (by decide) (by rw [hmax]; norm_num) (by norm_num) (by norm_num [allowed_ranges])

/-- C10: `setup_trigger`'s software validation is one-sided: it aborts
(`sys.exit`) exactly when the source channel is unconfigured or when
the resolved range `R` satisfies `R ≤ thresholdMv`; every other
threshold — all negative ones included — passes validation and a
hardware trigger is armed with `mV2adc` of it; and any threshold
`t ≤ -R` converts to a count `≤ -maxAdc`. -/
theorem c10_trigger_validation (s : BlockMode.Picoscope) (name : Char) (t : ℚ) :
    (setup_trigger s name t = .programExit ↔
      dictGet s.channel_ranges name = none
      ∨ ∃ idx, dictGet s.channel_ranges name = some idx
          ∧ (allowed_ranges.getD idx 0 : ℚ) ≤ t)
    ∧ (∀ idx, dictGet s.channel_ranges name = some idx →
        t < (allowed_ranges.getD idx 0 : ℚ) →
        setup_trigger s name t = .armed (mV2adc t idx s.max_ADC))
    ∧ (∀ idx, idx < allowed_ranges.length → 0 < s.max_ADC →
        t ≤ -(allowed_ranges.getD idx 0 : ℚ) →
        mV2adc t idx s.max_ADC ≤ -s.max_ADC) := by
  refine ⟨?_, ?_, ?_⟩
  · cases h : dictGet s.channel_ranges name with
    | none =>
      have he : setup_trigger s name t = .programExit := by
        simp only [setup_trigger, h]
      rw [he]
      exact iff_of_true rfl (Or.inl rfl)
    | some idx =>
      by_cases hle : (allowed_ranges.getD idx 0 : ℚ) ≤ t
      · have he : setup_trigger s name t = .programExit := by
          simp only [setup_trigger, h]
          rw [if_pos hle]
        rw [he]
        exact iff_of_true rfl (Or.inr ⟨idx, rfl, hle⟩)
      · have he : setup_trigger s name t = .armed (mV2adc t idx s.max_ADC) := by
          simp only [setup_trigger, h]
          rw [if_neg hle]
        rw [he]
        constructor
        · intro hcontra
          exact TriggerOutcome.noConfusion hcontra
        · rintro (hnone | ⟨idx', hidx', hle'⟩)
          · exact Option.noConfusion hnone
          · injection hidx' with e
            subst e
            exact absurd hle' hle
  · intro idx hidx htR
    simp only [setup_trigger, hidx]
    rw [if_neg (not_le.mpr htR)]
  · intro idx hlen hmax hneg
    have hRpos : (0 : ℚ) < (allowed_ranges.getD idx 0 : ℚ) := by
      exact_mod_cast allowed_ranges_getD_pos idx hlen
    have hMpos : (0 : ℚ) < (s.max_ADC : ℚ) := by exact_mod_cast hmax
    have hx : t * s.max_ADC / (allowed_ranges.getD idx 0 : ℚ)
        ≤ ((-s.max_ADC : ℤ) : ℚ) := by
      push_cast
      rw [div_le_iff₀ hRpos]
      calc t * (s.max_ADC : ℚ)
          ≤ (-(allowed_ranges.getD idx 0 : ℚ)) * s.max_ADC :=
            mul_le_mul_of_nonneg_right hneg hMpos.le
        _ = -(s.max_ADC : ℚ) * (allowed_ranges.getD idx 0 : ℚ) := by ring
    unfold mV2adc
    rw [channelInputRanges_getD_eq_allowed idx hlen]
    exact pyRound_le_int hx

/-- Witness for C10: with channel 'A' resolved to 2000 mV and
maxAdc = 32767, the threshold −5000 mV (beyond negative full scale)
passes validation, arms the hardware trigger, and its converted count
is `≤ −32767`. -/
theorem c10_trigger_validation_witness :
    dictGet (setup_channel (init_scope 32767) 'A' 2000).channel_ranges 'A' = some 7
    ∧ (-5000 : ℚ) < (allowed_ranges.getD 7 0 : ℚ)
    ∧ setup_trigger (setup_channel (init_scope 32767) 'A' 2000) 'A' (-5000)
        = .armed (mV2adc (-5000) 7 (setup_channel (init_scope 32767) 'A' 2000).max_ADC)
    ∧ 7 < allowed_ranges.length
    ∧ 0 < (setup_channel (init_scope 32767) 'A' 2000).max_ADC
    ∧ (-5000 : ℚ) ≤ -(allowed_ranges.getD 7 0 : ℚ)
    ∧ mV2adc (-5000) 7 (setup_channel (init_scope 32767) 'A' 2000).max_ADC
        ≤ -(setup_channel (init_scope 32767) 'A' 2000).max_ADC := by
  have hget : dictGet (setup_channel (init_scope 32767) 'A' 2000).channel_ranges 'A'
      = some 7 := by
    norm_num [setup_channel, init_scope, coerce_channel_range, next_ge,
      allowed_ranges, dictSet, dictGet]
  have hmax : (setup_channel (init_scope 32767) 'A' 2000).max_ADC = 32767 := by
    norm_num [setup_channel, init_scope]
  refine ⟨hget, by norm_num [allowed_ranges],
    (c10_trigger_validation (setup_channel (init_scope 32767) 'A' 2000) 'A' (-5000)).2.1
      7 hget (by norm_num [allowed_ranges]),
    by decide, by rw [hmax]; norm_num, by norm_num [allowed_ranges],
    (c10_trigger_validation (setup_channel (init_scope 32767) 'A' 2000) 'A' (-5000)).2.2
      7 (by decide) (by rw [hmax]; norm_num) (by norm_num [allowed_ranges])⟩

/-- C5 counterexample: configuring a trigger on channel 'C' of a fresh
session (channel 'C' never configured) makes `setup_trigger` terminate
the process via `sys.exit()` — no hardware trigger call is issued, but
the outcome is process termination, not a distinct recoverable
configuration-error outcome the caller could react to. -/
theorem c5_counterexample :
    dictGet (init_scope 32767).channel_ranges 'C' = none
    ∧ setup_trigger (init_scope 32767) 'C' 100 = .programExit
    ∧ setup_trigger (init_scope 32767) 'C' 100 ≠ .configError
    ∧ ∀ adc, setup_trigger (init_scope 32767) 'C' 100 ≠ .armed adc := by
  have h : setup_trigger (init_scope 32767) 'C' 100 = .programExit := rfl
  exact ⟨rfl, h, by rw [h]; exact fun hc => TriggerOutcome.noConfusion hc,
    fun adc => by rw [h]; exact fun hc => TriggerOutcome.noConfusion hc⟩

/-- C5 (amended): configuration-logic errors — a trigger whose source
channel was never configured, or a trigger threshold at/above the
source channel's resolved range — are detected in software before any
hardware trigger call is issued (no trigger is ever armed), but the
code terminates the process via `sys.exit()` instead of producing a
recoverable configuration-error outcome. -/
theorem c5_config_error_aborts (s : BlockMode.Picoscope) (name : Char) (t : ℚ)
    (h : dictGet s.channel_ranges name = none
        ∨ ∃ idx, dictGet s.channel_ranges name = some idx
            ∧ (allowed_ranges.getD idx 0 : ℚ) ≤ t) :
    setup_trigger s name t = .programExit
    ∧ setup_trigger s name t ≠ .configError
    ∧ ∀ adc, setup_trigger s name t ≠ .armed adc := by
  have hexit : setup_trigger s name t = .programExit := by
    rcases h with hnone | ⟨idx, hidx, hle⟩
    · simp [setup_trigger, hnone]
    · simp only [setup_trigger, hidx]
      rw [if_pos hle]
  exact ⟨hexit, by rw [hexit]; exact fun hc => TriggerOutcome.noConfusion hc,
    fun adc => by rw [hexit]; exact fun hc => TriggerOutcome.noConfusion hc⟩

/-- Witness for the amended C5 at the spec's scenario C: trigger on
never-configured channel 'C' of a fresh session. -/
theorem c5_config_error_aborts_witness :
    (dictGet (init_scope 32767).channel_ranges 'C' = none
      ∨ ∃ idx, dictGet (init_scope 32767).channel_ranges 'C' = some idx
          ∧ (allowed_ranges.getD idx 0 : ℚ) ≤ 100)
    ∧ setup_trigger (init_scope 32767) 'C' 100 = .programExit
    ∧ setup_trigger (init_scope 32767) 'C' 100 ≠ .configError
    ∧ ∀ adc, setup_trigger (init_scope 32767) 'C' 100 ≠ .armed adc :=
  ⟨Or.inl rfl, c5_config_error_aborts (init_scope 32767) 'C' 100 (Or.inl rfl)⟩

/-- C3 (evaluation at the failing input): for a block of 2 samples over
100 s the requested rate is 0.01 S/s, the computed timebase code is
39999999999, which exceeds the device's legal 32-bit timebase range
(2^32 − 1 = 4294967295) — yet `setup_block` keeps it instead of
coercing to the fallback code 3999, because the code's bound check uses
the Python float literal `2e32` (2·10³²) where the device bound 2³²
was intended. The pre/post-trigger split invariant of the claim does
hold at this input. -/
theorem c3_timebase_out_of_legal_range :
    convert_timebase 2 100 = 39999999999
    ∧ (setup_block (init_scope 32767) 2 100 0).timebase = 39999999999
    ∧ ¬ ((39999999999 : ℤ) ≤ 2 ^ 32 - 1)
    ∧ convert_timebase 2 100 ≠ 3999
    ∧ (setup_block (init_scope 32767) 2 100 0).pre_trigger_samples = 0
    ∧ (setup_block (init_scope 32767) 2 100 0).pre_trigger_samples
        + (setup_block (init_scope 32767) 2 100 0).post_trigger_samples = 2 := by
  have h : convert_timebase 2 100 = 39999999999 := by
    norm_num [convert_timebase]
  refine ⟨h, ?_, by norm_num, by rw [h]; norm_num, ?_, ?_⟩ <;>
    norm_num [setup_block, init_scope, h]

/-- C9: `get_block_traces` is not idempotent on the session state: a
second call without an intervening `run_block` applies the
ADC-to-millivolt scaling `value * rangeMv / maxAdc` a second time to
the already-converted per-channel data, so the second result is the
first result rescaled. -/
theorem c9_get_block_traces_not_idempotent (s : BlockMode.Picoscope)
    (c : Char) (buf : List ℚ) (ridx : ℕ)
    (hbuf : dictGet (get_block_traces s).buffers c = some buf)
    (hr : dictGet s.channel_ranges c = some ridx) :
    dictGet (get_block_traces (get_block_traces s)).buffers c
      = some (buf.map
          (fun x => x * (channelInputRanges.getD ridx 0 : ℚ) / (s.max_ADC : ℚ))) := by
  have hranges : (get_block_traces s).channel_ranges = s.channel_ranges := rfl
  have hmax : (get_block_traces s).max_ADC = s.max_ADC := rfl
  have hmap := dictGet_map_value
    (fun c0 v => adc2mV v ((dictGet (get_block_traces s).channel_ranges c0).getD 0)
      (get_block_traces s).max_ADC)
    (get_block_traces s).buffers c
  show dictGet (convert_ADC_units (get_block_traces s)).buffers c = _
  unfold convert_ADC_units
  rw [hmap, hbuf]
  simp only [Option.map_some, hranges, hmax, hr, Option.getD_some]
  rfl

/-- Witness for C9: a captured trace `[32767]` on channel 'A' with
range index 7 (2000 mV) and maxAdc = 32767 converts to `[2000]` on the
first call; the second call returns `[2000 · 2000 / 32767]`, the first
result rescaled, which differs from the first result. -/
theorem c9_get_block_traces_not_idempotent_witness :
    dictGet (get_block_traces
        { init_scope 32767 with buffers := [('A', [32767])], channel_ranges := [('A', 7)] }).buffers 'A'
      = some [2000]
    ∧ dictGet { init_scope 32767 with buffers := [('A', [32767])], channel_ranges := [('A', 7)] }.channel_ranges 'A' = some 7
    ∧ dictGet (get_block_traces (get_block_traces
        { init_scope 32767 with buffers := [('A', [32767])], channel_ranges := [('A', 7)] })).buffers 'A'
      = some ([(2000 : ℚ)].map (fun x => x * ((channelInputRanges.getD 7 0 : ℕ) : ℚ) / ((32767 : ℤ) : ℚ)))
    ∧ ([(2000 : ℚ)].map (fun x => x * ((channelInputRanges.getD 7 0 : ℕ) : ℚ) / ((32767 : ℤ) : ℚ)))
      ≠ [(2000 : ℚ)] := by
  have hbuf : dictGet (get_block_traces
      { init_scope 32767 with buffers := [('A', [32767])], channel_ranges := [('A', 7)] }).buffers 'A'
      = some [2000] := by
    norm_num [get_block_traces, convert_ADC_units, adc2mV, dictGet, channelInputRanges,
      init_scope]
  refine ⟨hbuf, rfl, ?_, by norm_num [channelInputRanges]⟩
  exact c9_get_block_traces_not_idempotent
    { init_scope 32767 with buffers := [('A', [32767])], channel_ranges := [('A', 7)] }
    'A' [2000] 7 hbuf rfl

/-- C7 counterexample: `active_channels` is an append-only list, not a
name-keyed set — after calling `setup_channel` twice with the same name
'A', the name appears twice in the session's active-channel state (not
exactly once), and `run_block` issues one `SetDataBuffers` call per
occurrence, i.e. two for 'A'. -/
theorem c7_counterexample :
    (setup_channel (setup_channel (init_scope 32767) 'A' 2000) 'A' 2000).active_channels.count 'A' = 2
    ∧ ¬ ((setup_channel (setup_channel (init_scope 32767) 'A' 2000) 'A' 2000).active_channels.count 'A' = 1)
    ∧ ∃ s2, run_block (setup_channel (setup_channel (init_scope 32767) 'A' 2000) 'A' 2000)
        (fun _ => 0) 0 = .started s2 ['A', 'A'] := by
  refine ⟨by decide, by decide, ⟨_, rfl⟩⟩

/-- C7 (amended): the session's active-channel state is an append-only
list: after any sequence of `setup_channel` calls, a channel name
appears once per call that configured it (so a name configured twice
appears twice, not once), and when `run_block` reaches its capture
request it has issued exactly one `SetDataBuffers` call per list entry.
The `channel_ranges` dict, in contrast, does keep a single entry per
distinct name. -/
theorem c7_active_channels_multiset (cfgs : List (Char × ℚ))
    (s : BlockMode.Picoscope) (name : Char) :
    ((cfgs.foldl (fun t p => setup_channel t p.1 p.2) s).active_channels).count name
      = s.active_channels.count name + (cfgs.map Prod.fst).count name
    ∧ ((dictKeys s.channel_ranges).Nodup →
        (dictKeys ((cfgs.foldl (fun t p => setup_channel t p.1 p.2) s)).channel_ranges).Nodup)
    ∧ ∀ f rs s2 calls,
        run_block (cfgs.foldl (fun t p => setup_channel t p.1 p.2) s) f rs
          = .started s2 calls →
        calls.count name
          = s.active_channels.count name + (cfgs.map Prod.fst).count name := by
  refine ⟨count_active_channels_foldl cfgs s name, nodup_ranges_foldl cfgs s, ?_⟩
  intro f rs s2 calls h
  rw [run_block_started_calls _ f rs s2 calls h]
  exact count_active_channels_foldl cfgs s name

/-- Witness for the amended C7: configuring 'A' twice on a fresh
session makes 'A' appear twice in `active_channels`, keeps the range
dict keys duplicate-free, and a successful `run_block` issues two
`SetDataBuffers` calls for 'A'. -/
theorem c7_active_channels_multiset_witness :
    (([(('A' : Char), (2000 : ℚ)), ('A', 500)].foldl
        (fun t p => setup_channel t p.1 p.2) (init_scope 32767)).active_channels).count 'A'
      = (init_scope 32767).active_channels.count 'A'
        + (([(('A' : Char), (2000 : ℚ)), ('A', 500)].map Prod.fst).count 'A')
    ∧ (dictKeys (init_scope 32767).channel_ranges).Nodup
    ∧ (dictKeys (([(('A' : Char), (2000 : ℚ)), ('A', 500)].foldl
        (fun t p => setup_channel t p.1 p.2) (init_scope 32767))).channel_ranges).Nodup
    ∧ ∃ s2 calls,
        run_block ([(('A' : Char), (2000 : ℚ)), ('A', 500)].foldl
          (fun t p => setup_channel t p.1 p.2) (init_scope 32767)) (fun _ => 0) 0
          = .started s2 calls
        ∧ calls.count 'A'
          = (init_scope 32767).active_channels.count 'A'
            + (([(('A' : Char), (2000 : ℚ)), ('A', 500)].map Prod.fst).count 'A') := by
  have hnodup : (dictKeys (init_scope 32767).channel_ranges).Nodup := by
    simp [init_scope, dictKeys]
  refine ⟨(c7_active_channels_multiset [('A', 2000), ('A', 500)] (init_scope 32767) 'A').1,
    hnodup,
    (c7_active_channels_multiset [('A', 2000), ('A', 500)] (init_scope 32767) 'A').2.1 hnodup,
    ⟨_, _, rfl, ?_⟩⟩
  exact (c7_active_channels_multiset [('A', 2000), ('A', 500)] (init_scope 32767) 'A').2.2
    (fun _ => 0) 0 _ _ rfl

/-- C6 (evaluation at the failing input): `run_block`'s
`assert_pico_ok` sits after the per-channel `SetDataBuffers` loop, so
with two active channels 'A' and 'B' where the driver returns the
non-success status 13 for 'A' and success for 'B', the failure is
silently swallowed: `run_block` proceeds to issue `RunBlock` and
reports a started capture instead of aborting. -/
theorem c6_swallowed_driver_failure :
    (fun c : Char => if c = 'A' then 13 else 0) 'A' ≠ 0
    ∧ ∃ s2, run_block { init_scope 32767 with active_channels := ['A', 'B'] }
        (fun c : Char => if c = 'A' then 13 else 0) 0 = .started s2 ['A', 'B'] := by
  exact ⟨by decide, ⟨_, rfl⟩⟩

/-- C4: during stream collection each delivered segment (start offset
into the rotating intermediate buffer plus sample count) is copied into
the destination buffer at the per-run cursor, which advances by exactly
the segment's count: two consecutive segments of `n1` and `n2` samples
land at destination offsets 0 and `n1`, producing a contiguous
`n1 + n2` destination prefix with no gaps or overlaps (the rest of the
destination buffer is untouched), for every channel. -/
theorem c4_stream_segments_contiguous (s : StreamMode.Picoscope) (c : Char)
    (ib1 ib2 cb : List ℤ) (newInter : List (Char × List ℤ)) (n1 s1 n2 s2 : ℕ)
    (hcur : s.nextSample = 0)
    (hcb : dictGet s.complete_buffers c = some cb)
    (hib1 : dictGet s.intermediate_buffers c = some ib1)
    (hib2 : dictGet newInter c = some ib2)
    (hlen1 : s1 + n1 ≤ ib1.length)
    (hlen2 : s2 + n2 ≤ ib2.length)
    (_hfit : n1 + n2 ≤ cb.length) :
    (streaming_callback { streaming_callback s n1 s1 false with
        intermediate_buffers := newInter } n2 s2 false).nextSample = n1 + n2
    ∧ dictGet (streaming_callback { streaming_callback s n1 s1 false with
        intermediate_buffers := newInter } n2 s2 false).complete_buffers c
      = some (((ib1.drop s1).take n1) ++ ((ib2.drop s2).take n2)
          ++ cb.drop (n1 + n2)) := by
  have hslice1 : ((ib1.drop s1).take n1).length = n1 := by
    rw [List.length_take, List.length_drop]
    omega
  have hslice2 : ((ib2.drop s2).take n2).length = n2 := by
    rw [List.length_take, List.length_drop]
    omega
  have ht1get : dictGet (streaming_callback s n1 s1 false).complete_buffers c
      = some (((ib1.drop s1).take n1) ++ cb.drop n1) := by
    show dictGet (s.complete_buffers.map (fun p => (p.1, writeSlice p.2 s.nextSample
      ((((dictGet s.intermediate_buffers p.1).getD []).drop s1).take n1)))) c = _
    rw [dictGet_map_value (fun c0 v => writeSlice v s.nextSample
      ((((dictGet s.intermediate_buffers c0).getD []).drop s1).take n1)) s.complete_buffers c,
      hcb, Option.map_some', hib1, Option.getD_some, hcur]
    unfold writeSlice
    rw [hslice1, List.take_zero, List.nil_append, Nat.zero_add]
  have ht1cur : (streaming_callback s n1 s1 false).nextSample = n1 := by
    show s.nextSample + n1 = n1
    rw [hcur, Nat.zero_add]
  constructor
  · show (streaming_callback s n1 s1 false).nextSample + n2 = n1 + n2
    rw [ht1cur]
  · show dictGet ((streaming_callback s n1 s1 false).complete_buffers.map
      (fun p => (p.1, writeSlice p.2 (streaming_callback s n1 s1 false).nextSample
        ((((dictGet newInter p.1).getD []).drop s2).take n2)))) c = _
    rw [dictGet_map_value (fun c0 v => writeSlice v
        (streaming_callback s n1 s1 false).nextSample
        ((((dictGet newInter c0).getD []).drop s2).take n2))
        (streaming_callback s n1 s1 false).complete_buffers c,
      ht1get, Option.map_some', hib2, Option.getD_some, ht1cur]
    unfold writeSlice
    rw [hslice2]
    congr 1
    have h1 : (((ib1.drop s1).take n1) ++ cb.drop n1).drop n1 = cb.drop n1 :=
      List.drop_left' hslice1
    have h2 : (((ib1.drop s1).take n1) ++ cb.drop n1).drop (n1 + n2)
        = cb.drop (n1 + n2) := by
      rw [← List.drop_drop, h1, List.drop_drop]
    rw [List.take_left' hslice1, h2]

/-- Witness for C4 at the spec's streaming scenario: segments of 50 and
30 samples copied into an 80-sample destination buffer land at offsets
0 and 50, filling it contiguously and advancing the cursor to 80. -/
theorem c4_stream_segments_contiguous_witness :
    ({ buffer_len := 512, num_buffers := 8, total_buffer_len := 4096,
       intermediate_buffers := [('A', List.replicate 50 (1 : ℤ))],
       channel_ranges := [], complete_buffers := [('A', List.replicate 80 (0 : ℤ))],
       nextSample := 0, autoStopOuter := false,
       wasCalledBack := false } : StreamMode.Picoscope).nextSample = 0
    ∧ (0 + 50 ≤ (List.replicate 50 (1 : ℤ)).length
      ∧ 0 + 30 ≤ (List.replicate 30 (2 : ℤ)).length
      ∧ 50 + 30 ≤ (List.replicate 80 (0 : ℤ)).length)
    ∧ (streaming_callback { streaming_callback
        { buffer_len := 512, num_buffers := 8, total_buffer_len := 4096,
          intermediate_buffers := [('A', List.replicate 50 (1 : ℤ))],
          channel_ranges := [], complete_buffers := [('A', List.replicate 80 (0 : ℤ))],
          nextSample := 0, autoStopOuter := false, wasCalledBack := false } 50 0 false with
        intermediate_buffers := [('A', List.replicate 30 (2 : ℤ))] } 30 0 false).nextSample
      = 50 + 30
    ∧ dictGet (streaming_callback { streaming_callback
        { buffer_len := 512, num_buffers := 8, total_buffer_len := 4096,
          intermediate_buffers := [('A', List.replicate 50 (1 : ℤ))],
          channel_ranges := [], complete_buffers := [('A', List.replicate 80 (0 : ℤ))],
          nextSample := 0, autoStopOuter := false, wasCalledBack := false } 50 0 false with
        intermediate_buffers := [('A', List.replicate 30 (2 : ℤ))] } 30 0 false).complete_buffers 'A'
      = some ((((List.replicate 50 (1 : ℤ)).drop 0).take 50)
          ++ (((List.replicate 30 (2 : ℤ)).drop 0).take 30)
          ++ (List.replicate 80 (0 : ℤ)).drop (50 + 30)) := by
  refine ⟨rfl, ⟨by simp, by simp, by simp⟩, ?_⟩
  exact c4_stream_segments_contiguous
    { buffer_len := 512, num_buffers := 8, total_buffer_len := 4096,
      intermediate_buffers := [('A', List.replicate 50 (1 : ℤ))],
      channel_ranges := [], complete_buffers := [('A', List.replicate 80 (0 : ℤ))],
      nextSample := 0, autoStopOuter := false, wasCalledBack := false }
    'A' (List.replicate 50 (1 : ℤ)) (List.replicate 30 (2 : ℤ))
    (List.replicate 80 (0 : ℤ)) [('A', List.replicate 30 (2 : ℤ))]
    50 0 30 0 rfl rfl rfl rfl (by simp) (by simp) (by simp)

/-- C8 counterexample: the block-mode readiness loop of
`get_block_traces` busy-polls: with a driver that reports not-ready
twice and then ready, the observable trace is three consecutive
readiness polls with no sleep anywhere — in particular the first
unsuccessful poll is not followed by a delay, contradicting the claim
that both blocking collection loops sleep between unsuccessful checks. -/
theorem c8_counterexample :
    block_ready_loop [false, false, true]
      = [.poll false, .poll false, .poll true]
    ∧ ¬ sleepsAfterFailedPoll (block_ready_loop [false, false, true])
    ∧ PollAction.sleep ∉ block_ready_loop [false, false, true] := by
  refine ⟨rfl, ?_, by decide⟩
  intro h
  have hR := (List.chain'_cons.mp h).1 rfl
  exact PollAction.noConfusion hR

/-- C8 (amended): only the streaming loop backs off — in
`stream_traces` every poll that was not called back is immediately
followed by a 10 ms sleep, while the block-mode readiness loop of
`get_block_traces` contains no sleep at all between its polls. -/
theorem c8_stream_sleeps_block_does_not (outcomes : List Bool)
    (s : StreamMode.Picoscope) (ds : List StreamMode.Delivery) :
    PollAction.sleep ∉ block_ready_loop outcomes
    ∧ sleepsAfterFailedPoll (stream_traces_loop s ds).1 := by
  constructor
  · induction outcomes with
    | nil => simp [block_ready_loop]
    | cons r rs ih =>
      simp only [block_ready_loop, List.mem_cons]
      rintro (h | h)
      · exact PollAction.noConfusion h
      · by_cases hr : r
        · rw [if_pos hr] at h
          exact absurd h (List.not_mem_nil _)
        · rw [if_neg hr] at h
          exact ih h
  · induction ds generalizing s with
    | nil => exact List.chain'_nil
    | cons d ds ih =>
      cases d with
      | none =>
        rw [stream_traces_loop_cons_none]
        by_cases hc : s.nextSample < s.total_buffer_len ∧ s.autoStopOuter = false
        · rw [if_pos hc]
          refine List.chain'_cons'.mpr ⟨?_, ?_⟩
          · intro b hb _
            simp only [List.head?_cons, Option.mem_def, Option.some.injEq] at hb
            exact hb.symm
          · refine List.chain'_cons'.mpr ⟨?_, ih _⟩
            intro b hb hcontra
            exact PollAction.noConfusion hcontra
        · rw [if_neg hc]
          exact List.chain'_nil
      | some seg =>
        obtain ⟨n, st, stop⟩ := seg
        rw [stream_traces_loop_cons_some]
        by_cases hc : s.nextSample < s.total_buffer_len ∧ s.autoStopOuter = false
        · rw [if_pos hc]
          refine List.chain'_cons'.mpr ⟨?_, ih _⟩
          intro b hb hcontra
          injection hcontra with e
          exact Bool.noConfusion e
        · rw [if_neg hc]
          exact List.chain'_nil

end Claims
